import Mathlib

/-!
Shallow embedding of the HedgeLab core (position ledger, signal aggregator,
opportunity scanner, market-data fetch, performance analytics) together with
theorems settling the specification claims.

Numeric values are modelled as rationals (`ℚ`); pandas/NumPy "NaN/absent"
values are modelled as `Option ℚ`, with the Python float comparison semantics
(every comparison against NaN is false) captured by the `oLT`/`oLE` helpers.
Effectful collaborators (the data vendor, the indicator library, the
database) are passed in as explicit function parameters, and Python
exceptions are modelled with `Except`.
-/

namespace HedgeLab

/-! ## Position Ledger (src/portfolio/portfolio_manager.py) -/

/-- Trade side; the source stores it as the string "BUY"/"SELL". -/
inductive Side where
  | buy
  | sell
deriving DecidableEq, Repr

/-- One trade record, as stored by `_log_trade`:
`total_value` is set to `quantity * price` at logging time. -/
structure Trade where
  side : Side
  quantity : ℚ
  price : ℚ
  total_value : ℚ
deriving DecidableEq, Repr

/-- Validity required by the trade form (`quantity > 0`, `price > 0`) plus
the `total_value = quantity * price` equation established by `_log_trade`. -/
def Trade.valid (t : Trade) : Prop :=
  0 < t.quantity ∧ 0 < t.price ∧ t.total_value = t.quantity * t.price

instance (t : Trade) : Decidable t.valid := by
  unfold Trade.valid; infer_instance

/-- A stored position: quantity (signed) and weighted-average cost. -/
structure Position where
  quantity : ℚ
  avg_cost : ℚ
deriving DecidableEq, Repr

/-- Function `_update_position_from_trade` (portfolio_manager.py lines 466-474):
`if side == 'BUY'` re-average the cost basis, else (SELL) keep it unchanged. -/
def updatePositionFromTrade (p : Position) (t : Trade) : Position :=
  if t.side = .buy then
    let newQty := p.quantity + t.quantity
    if newQty ≠ 0 then
      ⟨newQty, (p.quantity * p.avg_cost + t.quantity * t.price) / newQty⟩
    else
      ⟨newQty, t.price⟩
  else ⟨p.quantity - t.quantity, p.avg_cost⟩

/-- The P&L line of `_update_position_from_trade` (line 478):
`pnl = new_qty*current_price - new_qty*new_avg_cost` if `new_qty != 0` else `0`. -/
def positionPnl (qty avg price : ℚ) : ℚ :=
  if qty ≠ 0 then qty * price - qty * avg else 0

/-- Per-symbol accumulator of `_calculate_positions_from_trades`
(the `{'quantity': 0, 'total_cost': 0}` dict entry). -/
structure CalcState where
  quantity : ℚ
  total_cost : ℚ
deriving DecidableEq, Repr

/-- One loop iteration of `_calculate_positions_from_trades` (lines 514-519):
BUY adds quantity and `total_value` to the running cost, SELL only subtracts
quantity ("for sells, we don't change total_cost"). -/
def calcStep (s : CalcState) (t : Trade) : CalcState :=
  if t.side = .buy then ⟨s.quantity + t.quantity, s.total_cost + t.total_value⟩
  else ⟨s.quantity - t.quantity, s.total_cost⟩

/-- Replay of a whole (single-symbol) trade list by
`_calculate_positions_from_trades`: fold the per-trade step from the empty
accumulator, then materialise a row only when `quantity != 0`, with
`avg_cost = total_cost / quantity` for longs and `0` otherwise (lines 522-531). -/
def calcPositionFromTrades (ts : List Trade) : Option Position :=
  let s := ts.foldl calcStep ⟨0, 0⟩
  if s.quantity ≠ 0 then
    some ⟨s.quantity, if 0 < s.quantity then s.total_cost / s.quantity else 0⟩
  else none

/-- Incremental application of the Ledger update rule, starting from the flat
position `{quantity := 0, avg_cost := 0}` (the defaults of
`_update_position_from_trade` when no stored row exists). -/
def incrementalPosition (ts : List Trade) : Position :=
  ts.foldl updatePositionFromTrade ⟨0, 0⟩

/-- The trade pair of the spec's worked example, restricted to AAPL:
BUY 100 @ 150 then SELL 50 @ 155. -/
def exampleTrades : List Trade :=
  [⟨.buy, 100, 150, 15000⟩, ⟨.sell, 50, 155, 7750⟩]

lemma foldl_calcStep_quantity (ts : List Trade) :
    ∀ (s : CalcState) (p : Position), s.quantity = p.quantity →
      (ts.foldl calcStep s).quantity = (ts.foldl updatePositionFromTrade p).quantity := by
  induction ts with
  | nil => intro s p h; simpa using h
  | cons t ts ih =>
      intro s p h
      simp only [List.foldl_cons]
      apply ih
      by_cases hside : t.side = .buy
      · simp only [calcStep, updatePositionFromTrade, hside, if_true]
        split <;> simp [h]
      · simp [calcStep, updatePositionFromTrade, hside, h]

lemma foldl_allBuy_invariant (ts : List Trade)
    (hv : ∀ t ∈ ts, t.valid) (hb : ∀ t ∈ ts, t.side = .buy) :
    ∀ (s : CalcState) (p : Position), s.quantity = p.quantity →
      s.total_cost = p.quantity * p.avg_cost → 0 ≤ p.quantity →
      (ts.foldl calcStep s).quantity = (ts.foldl updatePositionFromTrade p).quantity ∧
      (ts.foldl calcStep s).total_cost =
        (ts.foldl updatePositionFromTrade p).quantity *
          (ts.foldl updatePositionFromTrade p).avg_cost ∧
      p.quantity ≤ (ts.foldl updatePositionFromTrade p).quantity ∧
      0 ≤ (ts.foldl updatePositionFromTrade p).quantity := by
  induction ts with
  | nil => intro s p h1 h2 h3; exact ⟨h1, h2, le_refl _, h3⟩
  | cons t ts ih =>
      intro s p h1 h2 h3
      obtain ⟨hq, _hp, htv⟩ := hv t (List.mem_cons_self t ts)
      have hside := hb t (List.mem_cons_self t ts)
      have hnew : p.quantity + t.quantity ≠ 0 := by positivity
      have hstep : updatePositionFromTrade p t =
          ⟨p.quantity + t.quantity,
            (p.quantity * p.avg_cost + t.quantity * t.price) / (p.quantity + t.quantity)⟩ := by
        simp [updatePositionFromTrade, hside, hnew]
      have hcalc : calcStep s t = ⟨s.quantity + t.quantity, s.total_cost + t.total_value⟩ := by
        simp [calcStep, hside]
      simp only [List.foldl_cons, hstep, hcalc]
      have hrec := ih (fun u hu => hv u (List.mem_cons_of_mem _ hu))
        (fun u hu => hb u (List.mem_cons_of_mem _ hu))
        ⟨s.quantity + t.quantity, s.total_cost + t.total_value⟩
        ⟨p.quantity + t.quantity,
          (p.quantity * p.avg_cost + t.quantity * t.price) / (p.quantity + t.quantity)⟩
        (by simp [h1]) (by
          simp only [h2, htv]
          field_simp)
        (by positivity)
      refine ⟨hrec.1, hrec.2.1, ?_, hrec.2.2.2⟩
      calc p.quantity ≤ p.quantity + t.quantity := by linarith
        _ ≤ _ := hrec.2.2.1

lemma allBuy_quantity_pos (t : Trade) (ts : List Trade)
    (hv : ∀ u ∈ t :: ts, u.valid) (hb : ∀ u ∈ t :: ts, u.side = .buy) :
    0 < (incrementalPosition (t :: ts)).quantity := by
  obtain ⟨hq, _, htv⟩ := hv t (List.mem_cons_self t ts)
  have hside := hb t (List.mem_cons_self t ts)
  have hnew : (0 : ℚ) + t.quantity ≠ 0 := by simpa using ne_of_gt hq
  have hstep : updatePositionFromTrade ⟨0, 0⟩ t =
      ⟨0 + t.quantity, (0 * 0 + t.quantity * t.price) / (0 + t.quantity)⟩ := by
    simp only [updatePositionFromTrade, hside, if_true]
    rw [if_pos hnew]
  have hinv := foldl_allBuy_invariant ts
    (fun u hu => hv u (List.mem_cons_of_mem _ hu))
    (fun u hu => hb u (List.mem_cons_of_mem _ hu))
    ⟨0 + t.quantity, 0 + t.total_value⟩
    ⟨0 + t.quantity, (0 * 0 + t.quantity * t.price) / (0 + t.quantity)⟩
    rfl (by
      have hnz : t.quantity ≠ 0 := ne_of_gt hq
      field_simp [htv])
    (by positivity)
  have hmono : (0 : ℚ) + t.quantity ≤ (incrementalPosition (t :: ts)).quantity := by
    simpa [incrementalPosition, hstep] using hinv.2.2.1
  have : (0 : ℚ) < 0 + t.quantity := by simpa using hq
  linarith

/-- C1 (counterexample): replaying BUY 100@150 then SELL 50@155 through
`_calculate_positions_from_trades` yields `avg_cost = 300` (the sell leaves
`total_cost` at 15000 over 50 remaining shares), while the position reached
incrementally by `_update_position_from_trade` keeps `avg_cost = 150`; the
claimed replay/incremental agreement fails at this input. -/
theorem c1_replay_counterexample :
    calcPositionFromTrades exampleTrades = some ⟨50, 300⟩ ∧
    incrementalPosition exampleTrades = ⟨50, 150⟩ ∧
    calcPositionFromTrades exampleTrades ≠ some (incrementalPosition exampleTrades) := by
  refine ⟨by with_unfolding_all rfl, by with_unfolding_all rfl, ?_⟩
  intro h
  rw [show incrementalPosition exampleTrades = ⟨50, 150⟩ from by with_unfolding_all rfl,
    show calcPositionFromTrades exampleTrades = some ⟨50, 300⟩ from by
      with_unfolding_all rfl] at h
  simp only [Option.some_inj, Position.mk.injEq] at h
  exact absurd h.2 (by norm_num)

/-- C1 (amended): for valid trades, the replay of
`_calculate_positions_from_trades` always agrees with the incremental
`_update_position_from_trade` rule on the resulting quantity; and when the
sequence consists of BUY trades only (and is non-empty), the replay
reproduces the stored position exactly, `avg_cost` included. After a SELL
the two rules genuinely diverge on `avg_cost`. -/
theorem c1_replay_amended (ts : List Trade) (hv : ∀ t ∈ ts, t.valid) :
    (ts.foldl calcStep ⟨0, 0⟩).quantity = (incrementalPosition ts).quantity ∧
    ((∀ t ∈ ts, t.side = .buy) → ts ≠ [] →
      calcPositionFromTrades ts = some (incrementalPosition ts)) := by
  constructor
  · exact foldl_calcStep_quantity ts ⟨0, 0⟩ ⟨0, 0⟩ rfl
  · intro hb hne
    obtain ⟨t, ts', rfl⟩ := List.exists_cons_of_ne_nil hne
    have hpos : 0 < (incrementalPosition (t :: ts')).quantity :=
      allBuy_quantity_pos t ts' hv hb
    have hinv := foldl_allBuy_invariant (t :: ts') hv hb ⟨0, 0⟩ ⟨0, 0⟩ rfl (by simp) (by simp)
    have hqty : ((t :: ts').foldl calcStep ⟨0, 0⟩).quantity =
        (incrementalPosition (t :: ts')).quantity := hinv.1
    have htc : ((t :: ts').foldl calcStep ⟨0, 0⟩).total_cost =
        (incrementalPosition (t :: ts')).quantity *
          (incrementalPosition (t :: ts')).avg_cost := hinv.2.1
    have hne0 : ((t :: ts').foldl calcStep ⟨0, 0⟩).quantity ≠ 0 := by
      rw [hqty]; exact ne_of_gt hpos
    have hposc : 0 < ((t :: ts').foldl calcStep ⟨0, 0⟩).quantity := by
      rw [hqty]; exact hpos
    have havg : ((t :: ts').foldl calcStep ⟨0, 0⟩).total_cost /
        ((t :: ts').foldl calcStep ⟨0, 0⟩).quantity =
        (incrementalPosition (t :: ts')).avg_cost := by
      rw [htc, hqty]
      exact mul_div_cancel_left₀ _ (ne_of_gt hpos)
    simp only [calcPositionFromTrades]
    rw [if_pos hne0, if_pos hposc, havg, hqty]

/-- Witness for the amended C1 at a concrete all-BUY sequence
(BUY 100 @ 150 then BUY 50 @ 300). -/
theorem c1_replay_amended_witness :
    ((([⟨.buy, 100, 150, 15000⟩, ⟨.buy, 50, 300, 15000⟩] : List Trade).foldl
        calcStep ⟨0, 0⟩).quantity =
      (incrementalPosition [⟨.buy, 100, 150, 15000⟩, ⟨.buy, 50, 300, 15000⟩]).quantity) ∧
    ((∀ t ∈ ([⟨.buy, 100, 150, 15000⟩, ⟨.buy, 50, 300, 15000⟩] : List Trade),
        t.side = .buy) →
      ([⟨.buy, 100, 150, 15000⟩, ⟨.buy, 50, 300, 15000⟩] : List Trade) ≠ [] →
      calcPositionFromTrades [⟨.buy, 100, 150, 15000⟩, ⟨.buy, 50, 300, 15000⟩] =
        some (incrementalPosition [⟨.buy, 100, 150, 15000⟩, ⟨.buy, 50, 300, 15000⟩])) :=
  c1_replay_amended _ (by
    intro t ht
    simp only [List.mem_cons, List.not_mem_nil, or_false] at ht
    rcases ht with rfl | rfl <;>
      exact ⟨by norm_num, by norm_num, by with_unfolding_all rfl⟩)

/-- The Ledger update rule exactly as the spec words it (spec §4.5): BUY with
`new_qty = qty + trade.qty`, re-averaged cost when `new_qty` is nonzero and
`trade.price` when it is zero; SELL with `new_qty = qty - trade.qty` and the
average cost unchanged. Stated independently to compare with the code's
`updatePositionFromTrade`. -/
def updateRuleSpec (p : Position) (t : Trade) : Position :=
  match t.side with
  | .buy =>
      if p.quantity + t.quantity = 0 then ⟨p.quantity + t.quantity, t.price⟩
      else
        ⟨p.quantity + t.quantity,
          (p.quantity * p.avg_cost + t.quantity * t.price) / (p.quantity + t.quantity)⟩
  | .sell => ⟨p.quantity - t.quantity, p.avg_cost⟩

/-- C2: for every position and every trade with positive quantity and price,
the code's update rule is exactly the spec's rule; and starting flat,
BUY 100@150 then SELL 50@155 leaves quantity 50 with `avg_cost` 150, whose
unrealized P&L at price 155 is 250 (the code's `pnl` line). -/
theorem c2_update_rule (p : Position) (t : Trade)
    (_hq : 0 < t.quantity) (_hp : 0 < t.price) :
    updatePositionFromTrade p t = updateRuleSpec p t ∧
    updatePositionFromTrade
        (updatePositionFromTrade ⟨0, 0⟩ ⟨.buy, 100, 150, 15000⟩)
        ⟨.sell, 50, 155, 7750⟩ = ⟨50, 150⟩ ∧
    positionPnl 50 150 155 = 250 := by
  refine ⟨?_, by with_unfolding_all rfl, by with_unfolding_all rfl⟩
  cases t with
  | mk side q pr tv =>
      cases side with
      | buy =>
          simp only [updatePositionFromTrade, updateRuleSpec, if_true]
          split <;> simp_all
      | sell => simp [updatePositionFromTrade, updateRuleSpec]

/-- Witness for C2 at the flat position and the BUY 100@150 trade. -/
theorem c2_update_rule_witness :
    updatePositionFromTrade ⟨0, 0⟩ ⟨.buy, 100, 150, 15000⟩ =
      updateRuleSpec ⟨0, 0⟩ ⟨.buy, 100, 150, 15000⟩ ∧
    updatePositionFromTrade
        (updatePositionFromTrade ⟨0, 0⟩ ⟨.buy, 100, 150, 15000⟩)
        ⟨.sell, 50, 155, 7750⟩ = ⟨50, 150⟩ ∧
    positionPnl 50 150 155 = 250 :=
  c2_update_rule ⟨0, 0⟩ ⟨.buy, 100, 150, 15000⟩ (by norm_num) (by norm_num)

/-! ## Signal Aggregator (src/opportunities/opportunity_detector.py) -/

/-- Signal direction, the `'BUY'/'SELL'/'NEUTRAL'` strings of the source. -/
inductive Direction where
  | buy
  | sell
  | neutral
deriving DecidableEq, Repr

/-- One per-indicator signal dict `{'signal': ..., 'strength': ...}`. -/
structure Signal where
  direction : Direction
  strength : ℚ
deriving DecidableEq, Repr

/-- One row of the indicator-extended frame produced by
`_calculate_technical_indicators`. `Close` and `Volume` are raw input
columns; the derived columns are `Option ℚ`, `none` standing for the NaN
that pandas places in the leading `window-1` rows. -/
structure TRow where
  close : ℚ
  volume : ℚ
  ma20 : Option ℚ
  ma50 : Option ℚ
  rsi : Option ℚ
  macd : Option ℚ
  macd_signal : Option ℚ
deriving DecidableEq, Repr

/-- Python float `<` with NaN modelled as `none`: any comparison against NaN
is false. -/
def oLT (a b : Option ℚ) : Bool :=
  match a, b with
  | some x, some y => decide (x < y)
  | _, _ => false

/-- Python float `<=` with NaN modelled as `none`. -/
def oLE (a b : Option ℚ) : Bool :=
  match a, b with
  | some x, some y => decide (x ≤ y)
  | _, _ => false

/-- Python float `>` (NaN-false). -/
def oGT (a b : Option ℚ) : Bool := oLT b a

/-- Python float `>=` (NaN-false). -/
def oGE (a b : Option ℚ) : Bool := oLE b a

/-- RSI branch of `_get_technical_signals` (lines 375-380). -/
def rsiSignalOf (latest : TRow) : Signal :=
  match latest.rsi with
  | some r =>
      if r < 30 then ⟨.buy, (30 - r) / 30⟩
      else if 70 < r then ⟨.sell, (r - 70) / 30⟩
      else ⟨.neutral, 1/2⟩
  | none => ⟨.neutral, 1/2⟩

/-- MACD branch of `_get_technical_signals` (lines 383-388): crossover test
against the previous row. -/
def macdSignalOf (previous latest : TRow) : Signal :=
  if oGT latest.macd latest.macd_signal && oLE previous.macd previous.macd_signal then
    ⟨.buy, 4/5⟩
  else if oLT latest.macd latest.macd_signal && oGE previous.macd previous.macd_signal then
    ⟨.sell, 4/5⟩
  else ⟨.neutral, 1/2⟩

/-- Moving-average branch of `_get_technical_signals` (lines 391-396):
the chained comparison `Close > MA20 > MA50` and its reverse. -/
def maSignalOf (latest : TRow) : Signal :=
  if oGT (some latest.close) latest.ma20 && oGT latest.ma20 latest.ma50 then
    ⟨.buy, 7/10⟩
  else if oLT (some latest.close) latest.ma20 && oLT latest.ma20 latest.ma50 then
    ⟨.sell, 7/10⟩
  else ⟨.neutral, 1/2⟩

/-- The three signals returned by `_get_technical_signals`. -/
structure TechSignals where
  rsi : Signal
  macd : Signal
  ma : Signal
deriving DecidableEq, Repr

/-- Function `_get_technical_signals` (lines 367-398): reads `iloc[-1]` and `iloc[-2]`
(an IndexError on frames of fewer than two rows is modelled as `none`) and
classifies the three indicators. -/
def getTechnicalSignals (data : List TRow) : Option TechSignals :=
  match data.getLast?, data.dropLast.getLast? with
  | some latest, some previous =>
      some ⟨rsiSignalOf latest, macdSignalOf previous latest, maSignalOf latest⟩
  | _, _ => none

/-- The RSI classification as the spec words it, on a defined RSI value. -/
def rsiSpecSignal (r : ℚ) : Signal :=
  if r < 30 then ⟨.buy, (30 - r) / 30⟩
  else if 70 < r then ⟨.sell, (r - 70) / 30⟩
  else ⟨.neutral, 1/2⟩

/-- The MACD crossover classification as the spec words it, on defined
previous/latest MACD and signal-line values. -/
def macdSpecSignal (pm ps m s : ℚ) : Signal :=
  if pm ≤ ps ∧ s < m then ⟨.buy, 4/5⟩
  else if ps ≤ pm ∧ m < s then ⟨.sell, 4/5⟩
  else ⟨.neutral, 1/2⟩

/-- The moving-average trend classification as the spec words it. -/
def maSpecSignal (c a20 a50 : ℚ) : Signal :=
  if a20 < c ∧ a50 < a20 then ⟨.buy, 7/10⟩
  else if c < a20 ∧ a20 < a50 then ⟨.sell, 7/10⟩
  else ⟨.neutral, 1/2⟩

lemma getLast?_append_pair {α : Type} (xs : List α) (a b : α) :
    (xs ++ [a, b]).getLast? = some b ∧ (xs ++ [a, b]).dropLast.getLast? = some a := by
  constructor
  · rw [show xs ++ [a, b] = (xs ++ [a]) ++ [b] by simp]
    exact List.getLast?_concat _
  · rw [show xs ++ [a, b] = (xs ++ [a]) ++ [b] by simp, List.dropLast_concat]
    exact List.getLast?_concat _

/-- C3: on a frame whose last two rows carry fully defined indicator values,
`_get_technical_signals` returns exactly the spec's per-indicator
classification: the RSI 30/70 thresholds with strengths `(30-RSI)/30` and
`(RSI-70)/30` and NEUTRAL 0.5 otherwise, the MACD crossover with strength
0.8, and the Close>MA20>MA50 trend with strength 0.7. -/
theorem c3_signal_classification (xs : List TRow) (prev latest : TRow)
    (r pm ps m s a20 a50 : ℚ)
    (hr : latest.rsi = some r)
    (hpm : prev.macd = some pm) (hps : prev.macd_signal = some ps)
    (hm : latest.macd = some m) (hs : latest.macd_signal = some s)
    (h20 : latest.ma20 = some a20) (h50 : latest.ma50 = some a50) :
    getTechnicalSignals (xs ++ [prev, latest]) =
      some ⟨rsiSpecSignal r, macdSpecSignal pm ps m s,
        maSpecSignal latest.close a20 a50⟩ := by
  obtain ⟨hlast, hdrop⟩ := getLast?_append_pair xs prev latest
  simp only [getTechnicalSignals, hlast, hdrop]
  have e1 : rsiSignalOf latest = rsiSpecSignal r := by
    simp [rsiSignalOf, hr, rsiSpecSignal]
  have e2 : macdSignalOf prev latest = macdSpecSignal pm ps m s := by
    simp only [macdSignalOf, macdSpecSignal, oGT, oGE, oLT, oLE, hpm, hps, hm, hs]
    by_cases h1 : s < m <;> by_cases h2 : pm ≤ ps <;>
      by_cases h3 : m < s <;> by_cases h4 : ps ≤ pm <;>
        simp [h1, h2, h3, h4]
  have e3 : maSignalOf latest = maSpecSignal latest.close a20 a50 := by
    simp only [maSignalOf, maSpecSignal, oGT, oLT, h20, h50]
    by_cases h1 : a20 < latest.close <;> by_cases h2 : a50 < a20 <;>
      by_cases h3 : latest.close < a20 <;> by_cases h4 : a20 < a50 <;>
        simp [h1, h2, h3, h4]
  rw [e1, e2, e3]

/-- Witness for C3 on a concrete two-row frame (RSI 25, MACD crossing up,
Close above both moving averages). -/
theorem c3_signal_classification_witness :
    getTechnicalSignals
        ([] ++ [⟨100, 1000, some 95, some 90, some 50, some (-1), some 0⟩,
          ⟨102, 1100, some 96, some 92, some 25, some 1, some 0⟩]) =
      some ⟨rsiSpecSignal 25, macdSpecSignal (-1) 0 1 0,
        maSpecSignal 102 96 92⟩ :=
  c3_signal_classification [] _ _ 25 (-1) 0 1 0 96 92 rfl rfl rfl rfl rfl rfl rfl

/-- A Signal is well formed: strength within `[0,1]` and the direction one of
the three enumerated values. -/
def SignalOK (sig : Signal) : Prop :=
  (0 ≤ sig.strength ∧ sig.strength ≤ 1) ∧
  (sig.direction = .buy ∨ sig.direction = .sell ∨ sig.direction = .neutral)

instance (sig : Signal) : Decidable (SignalOK sig) := by
  unfold SignalOK; infer_instance

/-- C4: whenever the last row's RSI value (if defined) lies in `[0,100]`,
every signal produced by `_get_technical_signals` has strength in `[0,1]`
and one of the three enumerated directions. -/
theorem c4_signal_bounds (xs : List TRow) (prev latest : TRow)
    (hrsi : ∀ r : ℚ, latest.rsi = some r → 0 ≤ r ∧ r ≤ 100)
    (sigs : TechSignals)
    (hout : getTechnicalSignals (xs ++ [prev, latest]) = some sigs) :
    SignalOK sigs.rsi ∧ SignalOK sigs.macd ∧ SignalOK sigs.ma := by
  obtain ⟨hlast, hdrop⟩ := getLast?_append_pair xs prev latest
  simp only [getTechnicalSignals, hlast, hdrop, Option.some_inj] at hout
  subst hout
  refine ⟨?_, ?_, ?_⟩
  · cases h : latest.rsi with
    | none =>
        have hred : rsiSignalOf latest = ⟨.neutral, 1/2⟩ := by simp [rsiSignalOf, h]
        rw [hred]
        exact ⟨⟨by norm_num, by norm_num⟩, Or.inr (Or.inr rfl)⟩
    | some r =>
        obtain ⟨h0, h100⟩ := hrsi r h
        have hred : rsiSignalOf latest = rsiSpecSignal r := by
          simp [rsiSignalOf, h, rsiSpecSignal]
        rw [hred]
        unfold SignalOK rsiSpecSignal
        constructor
        · split_ifs with h1 h2
          · refine ⟨?_, ?_⟩
            · show (0 : ℚ) ≤ (30 - r) / 30
              exact div_nonneg (by linarith) (by norm_num)
            · show (30 - r) / 30 ≤ (1 : ℚ)
              rw [div_le_one (by norm_num)]; linarith
          · refine ⟨?_, ?_⟩
            · show (0 : ℚ) ≤ (r - 70) / 30
              exact div_nonneg (by linarith) (by norm_num)
            · show (r - 70) / 30 ≤ (1 : ℚ)
              rw [div_le_one (by norm_num)]; linarith
          · norm_num
        · split_ifs <;> simp
  · constructor
    · simp only [macdSignalOf]; split_ifs <;> norm_num
    · simp only [macdSignalOf]; split_ifs <;> simp
  · constructor
    · simp only [maSignalOf]; split_ifs <;> norm_num
    · simp only [maSignalOf]; split_ifs <;> simp

/-- Witness for C4 on the concrete frame of the C3 witness (last-row RSI 25). -/
theorem c4_signal_bounds_witness :
    SignalOK (TechSignals.mk (rsiSpecSignal 25) (macdSpecSignal (-1) 0 1 0)
        (maSpecSignal 102 96 92)).rsi ∧
    SignalOK (TechSignals.mk (rsiSpecSignal 25) (macdSpecSignal (-1) 0 1 0)
        (maSpecSignal 102 96 92)).macd ∧
    SignalOK (TechSignals.mk (rsiSpecSignal 25) (macdSpecSignal (-1) 0 1 0)
        (maSpecSignal 102 96 92)).ma :=
  c4_signal_bounds []
    ⟨100, 1000, some 95, some 90, some 50, some (-1), some 0⟩
    ⟨102, 1100, some 96, some 92, some 25, some 1, some 0⟩
    (by
      intro r hr
      have h25 : (25 : ℚ) = r := Option.some.inj hr
      subst h25; norm_num)
    _ (by with_unfolding_all rfl)

/-! ## Opportunity Scanner (src/opportunities/opportunity_detector.py)

`get_stock_info` returns a dict; the scanners read fields with
`stock_info.get(key, default)`. A field is modelled as `Option ℚ`: `none`
stands for an absent key. `_scan_value_stocks` defaults absent P/E and P/B
to `float('inf')`, which is truthy but fails every `< bound` test, so an
absent field never qualifies; the other scanners default to `0`, which is
falsy. Both situations reduce to the `Option` matches below. -/

/-- The fundamental fields of `get_stock_info` used by the scanners. -/
structure StockInfo where
  pe_ratio : Option ℚ
  price_to_book : Option ℚ
  revenue_growth : Option ℚ
  profit_margins : Option ℚ
  current_price : Option ℚ
deriving DecidableEq, Repr

/-- An opportunity record (the dict built by the `_scan_*` functions),
restricted to its numeric/identifying fields. -/
structure Opportunity where
  symbol : String
  strategy : String
  signal_strength : ℚ
  price : ℚ
  change_pct : ℚ
  volume : ℚ
deriving DecidableEq, Repr

/-- Function `_scan_value_stocks` (lines 425-448): include iff trailing P/E is
present, truthy and `< 15` and price/book is present, truthy and `< 2`;
the returned strength is `max(0.5, 1 - 0.5*min(PE/15,1) - 0.5*min(PB/2,1))`. -/
def scanValueStocks (symbol : String) (info : StockInfo) : Option Opportunity :=
  match info.pe_ratio, info.price_to_book with
  | some pe, some pb =>
      if pe ≠ 0 ∧ pe < 15 ∧ pb ≠ 0 ∧ pb < 2 then
        some { symbol := symbol, strategy := "Value",
               signal_strength := max (1/2) (1 - min (pe / 15) 1 * (1/2) - min (pb / 2) 1 * (1/2)),
               price := info.current_price.getD 0,
               change_pct := 0, volume := 0 }
      else none
  | _, _ => none

/-- Function `_scan_growth_stocks` (lines 450-472): absent fields default to 0, the
truthiness test then coincides with the strict bound tests. -/
def scanGrowthStocks (symbol : String) (info : StockInfo) : Option Opportunity :=
  let g := info.revenue_growth.getD 0
  let m := info.profit_margins.getD 0
  if g ≠ 0 ∧ 3/20 < g ∧ m ≠ 0 ∧ 1/10 < m then
    some { symbol := symbol, strategy := "Growth",
           signal_strength := max (1/2) (min (g * 2) 1 * (7/10) + min (m * 5) 1 * (3/10)),
           price := info.current_price.getD 0,
           change_pct := 0, volume := 0 }
  else none

/-- Function `_scan_momentum_stocks` (lines 474-502): requires at least 20 rows,
compares the last close against `iloc[-20]` and the last volume against the
mean of the trailing 20 volumes. -/
def scanMomentumStocks (symbol : String) (data : List TRow) (_info : StockInfo) :
    Option Opportunity :=
  if data.length < 20 then none
  else
    match data.getLast?, (data.drop (data.length - 20)).head? with
    | some latest, some twentyAgo =>
        let priceMomentum := (latest.close - twentyAgo.close) / twentyAgo.close * 100
        let tailVols := (data.drop (data.length - 20)).map TRow.volume
        let volumeMomentum := latest.volume / (tailVols.sum / (tailVols.length : ℚ))
        if 10 < priceMomentum ∧ 6/5 < volumeMomentum then
          some { symbol := symbol, strategy := "Momentum",
                 signal_strength :=
                   max (1/2) (min (priceMomentum / 20) 1 * (7/10) +
                     min (volumeMomentum / 2) 1 * (3/10)),
                 price := latest.close,
                 change_pct := priceMomentum, volume := latest.volume }
        else none
    | _, _ => none

/-- Count of BUY signals among the three classified indicators
(`sum(1 for s in signals.values() if s['signal'] == 'BUY')`). -/
def buySignalCount (sigs : TechSignals) : ℕ :=
  ([sigs.rsi, sigs.macd, sigs.ma].filter (fun s => s.direction = .buy)).length

/-- Function `_scan_technical_signals` (lines 400-423): classify, include iff at
least 60% of the three indicators say BUY; reading `iloc[-2]` on a frame of
fewer than two rows raises (modelled as `Except.error`). -/
def scanTechnicalSignals (symbol : String) (data : List TRow) (_info : StockInfo) :
    Except String (Option Opportunity) :=
  match data.getLast?, data.dropLast.getLast? with
  | some latest, some previous =>
      let sigs : TechSignals :=
        ⟨rsiSignalOf latest, macdSignalOf previous latest, maSignalOf latest⟩
      let strength : ℚ := (buySignalCount sigs : ℚ) / 3
      if 3/5 ≤ strength then
        .ok (some { symbol := symbol, strategy := "Technical",
                    signal_strength := strength,
                    price := latest.close,
                    change_pct := (latest.close - previous.close) / previous.close * 100,
                    volume := latest.volume })
      else .ok none
  | _, _ => .error "single positional indexer is out-of-bounds"

/-- The scan strategy selector (the `scan_type` string of
`_run_opportunity_scan`). -/
inductive ScanType where
  | technical
  | value
  | growth
  | momentum
deriving DecidableEq, Repr

/-- The scanner's effectful collaborators, passed explicitly: the price
fetch (already composed with the row-preserving, external `ta` indicator
enrichment of `_calculate_technical_indicators`, so emptiness of the frame
is preserved) and the fundamentals fetch. An `Except.error` models a raised
exception. -/
structure ScanEnv where
  getStockData : String → Except String (List TRow)
  getStockInfo : String → Except String StockInfo

/-- Body of the per-symbol `try:` block of `_run_opportunity_scan`
(lines 306-331): fetch, skip empty frames (`continue` is `.ok none`),
read `iloc[-1]`, fetch fundamentals, dispatch on the scan type. -/
def scanSymbol (env : ScanEnv) (st : ScanType) (symbol : String) :
    Except String (Option Opportunity) := do
  let data ← env.getStockData symbol
  if data.isEmpty then return none
  let _latest ← match data.getLast? with
    | some l => Except.ok l
    | none => Except.error "single positional indexer is out-of-bounds"
  let info ← env.getStockInfo symbol
  match st with
  | .technical => scanTechnicalSignals symbol data info
  | .value => pure (scanValueStocks symbol info)
  | .growth => pure (scanGrowthStocks symbol info)
  | .momentum => pure (scanMomentumStocks symbol data info)

/-- The per-symbol outcome as seen by the scan loop: exceptions are caught
(`except ... continue`), a returned opportunity is kept only when its
strength reaches the `min_signal_strength` filter. -/
def keepSymbol (env : ScanEnv) (st : ScanType) (minStrength : ℚ) (symbol : String) :
    Option Opportunity :=
  match scanSymbol env st symbol with
  | .ok (some o) => if minStrength ≤ o.signal_strength then some o else none
  | .ok none => none
  | .error _ => none

/-- Function `_run_opportunity_scan` (lines 298-337): iterate the first 20 watchlist
symbols (`symbols_to_scan[:20]`) in order, collecting the kept
opportunities; `filters.get('min_signal_strength', 0.5)` supplies the
threshold. -/
def runOpportunityScan (env : ScanEnv) (st : ScanType) (filters : Option ℚ)
    (watchlist : List String) : List Opportunity :=
  (watchlist.take 20).filterMap (keepSymbol env st (filters.getD (1/2)))

/-- C5: the value-strategy scan returns an Opportunity exactly when trailing
P/E is present, truthy and `< 15` and price/book is present, truthy and
`< 2` (an absent field defaults to `float('inf')` and fails the bound), and
the returned strength is `max(0.5, 1 - 0.5*min(PE/15,1) - 0.5*min(PB/2,1))`. -/
theorem c5_value_scan (symbol : String) (info : StockInfo) :
    ((scanValueStocks symbol info).isSome ↔
      ∃ pe pb : ℚ, info.pe_ratio = some pe ∧ info.price_to_book = some pb ∧
        pe ≠ 0 ∧ pe < 15 ∧ pb ≠ 0 ∧ pb < 2) ∧
    (∀ (pe pb : ℚ) (opp : Opportunity),
      info.pe_ratio = some pe → info.price_to_book = some pb →
      scanValueStocks symbol info = some opp →
      opp.signal_strength =
        max (1/2) (1 - (1/2) * min (pe / 15) 1 - (1/2) * min (pb / 2) 1)) := by
  constructor
  · cases hpe : info.pe_ratio with
    | none => simp [scanValueStocks, hpe]
    | some pe =>
        cases hpb : info.price_to_book with
        | none => simp [scanValueStocks, hpe, hpb]
        | some pb =>
            simp only [scanValueStocks, hpe, hpb]
            split_ifs with h
            · simp only [Option.isSome_some, true_iff]
              exact ⟨pe, pb, rfl, rfl, h.1, h.2.1, h.2.2.1, h.2.2.2⟩
            · constructor
              · intro hs; simp at hs
              · rintro ⟨pe', pb', hpe', hpb', h1, h2, h3, h4⟩
                obtain rfl : pe = pe' := Option.some.inj hpe'
                obtain rfl : pb = pb' := Option.some.inj hpb'
                exact (h ⟨h1, h2, h3, h4⟩).elim
  · intro pe pb opp hpe hpb hopp
    simp only [scanValueStocks, hpe, hpb] at hopp
    split_ifs at hopp with h
    · obtain rfl := Option.some.inj hopp
      show max (1/2) (1 - min (pe / 15) 1 * (1/2) - min (pb / 2) 1 * (1/2)) = _
      ring_nf

/-- The fundamentals record of the spec's value example: PE 10, P/B 1. -/
def infoValueEx : StockInfo :=
  ⟨some 10, some 1, none, none, some 100⟩

/-- Witness for C5 at PE 10, P/B 1: the stock is included, the raw strength
`1 - 0.5*min(10/15,1) - 0.5*min(1/2,1)` is `5/12 ≈ 0.417`, and the returned
strength is floored to `0.5`. -/
theorem c5_value_scan_witness :
    (((scanValueStocks "AAPL" infoValueEx).isSome ↔
      ∃ pe pb : ℚ, infoValueEx.pe_ratio = some pe ∧
        infoValueEx.price_to_book = some pb ∧
        pe ≠ 0 ∧ pe < 15 ∧ pb ≠ 0 ∧ pb < 2) ∧
    (∀ (pe pb : ℚ) (opp : Opportunity),
      infoValueEx.pe_ratio = some pe → infoValueEx.price_to_book = some pb →
      scanValueStocks "AAPL" infoValueEx = some opp →
      opp.signal_strength =
        max (1/2) (1 - (1/2) * min (pe / 15) 1 - (1/2) * min (pb / 2) 1))) ∧
    scanValueStocks "AAPL" infoValueEx =
      some ⟨"AAPL", "Value", 1/2, 100, 0, 0⟩ ∧
    (1 - (1/2) * min ((10:ℚ) / 15) 1 - (1/2) * min ((1:ℚ) / 2) 1 = 5/12) :=
  ⟨c5_value_scan "AAPL" infoValueEx, by with_unfolding_all rfl, by norm_num⟩

lemma filterMap_skip_eq {α β : Type} [DecidableEq α] (f : α → Option β) (s : α)
    (hf : f s = none) (l : List α) :
    l.filterMap f = (l.filter (fun x => x ≠ s)).filterMap f := by
  induction l with
  | nil => rfl
  | cons a l ih =>
      by_cases ha : a = s
      · subst ha
        simp [List.filterMap_cons, List.filter_cons, hf, ih]
      · simp [List.filterMap_cons, List.filter_cons, ha, ih]

lemma keepSymbol_none_of_fail (env : ScanEnv) (st : ScanType) (minS : ℚ)
    (s : String)
    (hfail : (∃ e, scanSymbol env st s = .error e) ∨ env.getStockData s = .ok []) :
    keepSymbol env st minS s = none := by
  rcases hfail with ⟨e, he⟩ | hempty
  · simp [keepSymbol, he]
  · have : scanSymbol env st s = .ok none := by
      simp only [scanSymbol, hempty]
      rfl
    simp [keepSymbol, this]

/-- C6: a scan never aborts because of one symbol: every opportunity in the
result comes from a watchlist symbol whose per-symbol computation succeeded
with strength at least `filters.get('min_signal_strength', 0.5)`, and a
symbol whose fetch/computation raises — or whose data comes back empty —
contributes nothing: the result is as if that symbol were filtered out of
the scanned prefix. -/
theorem c6_scan_isolation (env : ScanEnv) (st : ScanType) (filters : Option ℚ)
    (wl : List String) (s : String)
    (hfail : (∃ e, scanSymbol env st s = .error e) ∨ env.getStockData s = .ok []) :
    (∀ o ∈ runOpportunityScan env st filters wl,
      ∃ sym ∈ wl, scanSymbol env st sym = .ok (some o) ∧
        filters.getD (1/2) ≤ o.signal_strength) ∧
    runOpportunityScan env st filters wl =
      ((wl.take 20).filter (fun x => x ≠ s)).filterMap
        (keepSymbol env st (filters.getD (1/2))) := by
  constructor
  · intro o ho
    simp only [runOpportunityScan, List.mem_filterMap] at ho
    obtain ⟨sym, hsym, hkeep⟩ := ho
    refine ⟨sym, List.take_subset _ _ hsym, ?_⟩
    cases hscan : scanSymbol env st sym with
    | error e => simp [keepSymbol, hscan] at hkeep
    | ok oo =>
        cases oo with
        | none => simp [keepSymbol, hscan] at hkeep
        | some o' =>
            simp only [keepSymbol, hscan] at hkeep
            by_cases hmin : filters.getD (1/2) ≤ o'.signal_strength
            · rw [if_pos hmin] at hkeep
              obtain rfl := Option.some.inj hkeep
              exact ⟨rfl, hmin⟩
            · rw [if_neg hmin] at hkeep; cases hkeep
  · exact filterMap_skip_eq _ s (keepSymbol_none_of_fail env st _ s hfail) _

/-- A minimal indicator row for scanner witnesses. -/
def rowDefault : TRow := ⟨100, 1000, none, none, none, none, none⟩

/-- A two-symbol environment: "BAD" raises on fetch, every other symbol
fetches one row and value-friendly fundamentals. -/
def envEx : ScanEnv :=
  { getStockData := fun s =>
      if s = "BAD" then .error "Too Many Requests" else .ok [rowDefault]
    getStockInfo := fun _ => .ok infoValueEx }

/-- Witness for C6: on the watchlist `["GOOD", "BAD"]` with the value
strategy, the failing symbol "BAD" is skipped and the scan result is as if
only "GOOD" were scanned. -/
theorem c6_scan_isolation_witness :
    (∀ o ∈ runOpportunityScan envEx .value none ["GOOD", "BAD"],
      ∃ sym ∈ ["GOOD", "BAD"], scanSymbol envEx .value sym = .ok (some o) ∧
        (none : Option ℚ).getD (1/2) ≤ o.signal_strength) ∧
    runOpportunityScan envEx .value none ["GOOD", "BAD"] =
      ((["GOOD", "BAD"].take 20).filter (fun x => x ≠ "BAD")).filterMap
        (keepSymbol envEx .value ((none : Option ℚ).getD (1/2))) :=
  c6_scan_isolation envEx .value none ["GOOD", "BAD"] "BAD"
    (Or.inl ⟨"Too Many Requests", rfl⟩)

/-- C9: the scan result only depends on the first 20 watchlist symbols
(`symbols_to_scan[:20]`): the scan of any watchlist equals the scan of its
20-element prefix, so a symbol at position 21 or later never contributes,
regardless of strategy, filter threshold or environment. -/
theorem c9_scan_take_twenty (env : ScanEnv) (st : ScanType) (filters : Option ℚ)
    (wl : List String) :
    runOpportunityScan env st filters wl =
      runOpportunityScan env st filters (wl.take 20) := by
  simp [runOpportunityScan, List.take_take]

/-! ## Market data fetch (src/data/market_data.py, src/data/mock_data.py) -/

/-- Outcome of one `get_stock_data` call: the returned close series plus a
count of vendor calls issued and of fallback (mock-generator) uses. -/
structure FetchTrace where
  result : List ℚ
  vendorCalls : ℕ
  mockCalls : ℕ
deriving DecidableEq, Repr

/-- Method `MarketDataProvider.get_stock_data` (market_data.py lines 28-73): one
`try:` around a single vendor call; on any exception the rate-limit text
check only logs, then — if the mock provider imported — the result of the
symbol-seeded deterministic generator is returned (one fallback use),
otherwise an empty frame is returned. There is no retry loop. The mock
generator is a pure function of `(symbol, period)`, modelling
`np.random.seed(hash(symbol) % 1000)` in `MockMarketDataProvider`. -/
def marketGetStockData (vendorFetch : Except String (List ℚ))
    (mockGen : Option (String → String → List ℚ)) (symbol period : String) :
    FetchTrace :=
  match vendorFetch with
  | .ok data => ⟨data, 1, 0⟩
  | .error _ =>
      match mockGen with
      | some gen => ⟨gen symbol period, 1, 1⟩
      | none => ⟨[], 1, 0⟩

/-- The period-to-days table of `MockMarketDataProvider.get_stock_data`
(mock_data.py lines 15-26). -/
def mockPeriodDays (period : String) : ℕ :=
  if period = "1d" then 1
  else if period = "5d" then 5
  else if period = "1mo" then 30
  else if period = "3mo" then 90
  else if period = "6mo" then 180
  else 365

/-- C7: every `get_stock_data` call issues exactly one vendor call (no
retries), uses the synthetic-data fallback at most once, and when no
fallback is configured a vendor failure surfaces as an empty result — a
normal return, not an exception (the function is total). -/
theorem c7_fetch_fallback (vendorFetch : Except String (List ℚ))
    (mockGen : Option (String → String → List ℚ)) (symbol period : String) :
    (marketGetStockData vendorFetch mockGen symbol period).vendorCalls = 1 ∧
    (marketGetStockData vendorFetch mockGen symbol period).mockCalls ≤ 1 ∧
    (∀ e, vendorFetch = .error e → mockGen = none →
      (marketGetStockData vendorFetch mockGen symbol period).result = []) := by
  refine ⟨?_, ?_, ?_⟩
  · cases vendorFetch with
    | ok data => rfl
    | error e => cases mockGen <;> rfl
  · cases vendorFetch with
    | ok data => norm_num [marketGetStockData]
    | error e => cases mockGen <;> norm_num [marketGetStockData]
  · intro e he hnone
    subst he; subst hnone
    rfl

/-- Witness for C7: a rate-limited vendor call with no mock provider
configured yields the empty frame after exactly one vendor call. -/
theorem c7_fetch_fallback_witness :
    (marketGetStockData (.error "Too Many Requests") none "AAPL" "1y").vendorCalls = 1 ∧
    (marketGetStockData (.error "Too Many Requests") none "AAPL" "1y").mockCalls ≤ 1 ∧
    (∀ e, (Except.error "Too Many Requests" : Except String (List ℚ)) = .error e →
      (none : Option (String → String → List ℚ)) = none →
      (marketGetStockData (.error "Too Many Requests") none "AAPL" "1y").result = []) :=
  c7_fetch_fallback (.error "Too Many Requests") none "AAPL" "1y"

/-! ## Performance analytics (src/portfolio/portfolio_manager.py lines 275-284)

`_get_performance_data` adds `daily_return = total_value.pct_change()`;
the Sharpe card then uses `daily_return.dropna()`. We model the composite
pct-change-then-dropna directly: the NaN at index 0 is dropped and the
remaining entries are `(v[i] - v[i-1]) / v[i-1]`. The model matches pandas
when every `total_value` is nonzero (pandas produces ±inf/NaN on division
by zero where `ℚ` produces `0`); the theorems carry a positivity
hypothesis for that reason. -/

/-- Tail of the pct-change series: previous value threaded explicitly. -/
def pctChangeAux : ℚ → List ℚ → List ℚ
  | _, [] => []
  | prev, v :: rest => (v - prev) / prev :: pctChangeAux v rest

/-- Models `total_value.pct_change().dropna()`. -/
def dailyReturns : List ℚ → List ℚ
  | [] => []
  | v :: rest => pctChangeAux v rest

/-- Models `Series.mean()`. -/
def listMean (l : List ℚ) : ℚ := l.sum / l.length

/-- Models `Series.std()` squared: the sample variance with `ddof=1`. pandas
returns NaN (`none`) for fewer than two observations; `std > 0` is exactly
`variance > 0` and the NaN comparison is false. -/
def sampleVar (l : List ℚ) : Option ℚ :=
  if l.length < 2 then none
  else some ((l.map (fun x => (x - listMean l) ^ 2)).sum / ((l.length : ℚ) - 1))

/-- What the Sharpe metric card displays. `ratio m v` stands for the number
`m / √v × √252` (mean over standard deviation, annualized), `zero` for the
literal `0` of the `else` branch, `na` for the "N/A" card. -/
inductive SharpeDisplay where
  | na
  | zero
  | ratio (mean variance : ℚ)
deriving DecidableEq, Repr

/-- The Sharpe-ratio card of `_render_performance_analytics` (lines
275-284): "N/A" unless the value series has more than one point and the
return series is non-empty; otherwise `mean/std*sqrt(252)` when `std > 0`
and the literal `0` when the standard deviation is zero or NaN. -/
def sharpeCard (perf : List ℚ) : SharpeDisplay :=
  if 1 < perf.length then
    let dr := dailyReturns perf
    if 0 < dr.length then
      match sampleVar dr with
      | some v => if 0 < v then .ratio (listMean dr) v else .zero
      | none => .zero
    else .na
  else .na

lemma pctChangeAux_length (l : List ℚ) : ∀ prev, (pctChangeAux prev l).length = l.length := by
  induction l with
  | nil => intro prev; rfl
  | cons v rest ih => intro prev; simp [pctChangeAux, ih]

/-- C8 (counterexample): with a single data point the Sharpe card shows
"N/A", not the number 0 the claim requires for fewer than 2 points. -/
theorem c8_sharpe_counterexample :
    sharpeCard [100] = .na ∧ sharpeCard [100] ≠ .zero := by
  constructor <;> with_unfolding_all decide

/-- C8 (amended): for a daily value series of at least two positive points,
the reported Sharpe ratio is `mean/std × √252` (encoded as
`SharpeDisplay.ratio mean variance`) whenever the sample variance of the
daily returns is positive, and the literal `0` whenever the standard
deviation is zero or undefined (NaN, i.e. a single return); with fewer than
two data points the card shows "N/A" rather than 0. -/
theorem c8_sharpe_amended (perf : List ℚ) :
    (perf.length < 2 → sharpeCard perf = .na) ∧
    (2 ≤ perf.length → (∀ v ∈ perf, 0 < v) →
      (∀ v : ℚ, sampleVar (dailyReturns perf) = some v → 0 < v →
        sharpeCard perf = .ratio (listMean (dailyReturns perf)) v) ∧
      (sampleVar (dailyReturns perf) = some 0 → sharpeCard perf = .zero) ∧
      (sampleVar (dailyReturns perf) = none → sharpeCard perf = .zero)) := by
  constructor
  · intro hlen
    have : ¬ 1 < perf.length := by omega
    simp [sharpeCard, this]
  · intro hlen _hpos
    have h1 : 1 < perf.length := by omega
    have hdr : 0 < (dailyReturns perf).length := by
      cases perf with
      | nil => simp at hlen
      | cons v rest =>
          simp only [dailyReturns, pctChangeAux_length]
          simp at hlen
          omega
    refine ⟨?_, ?_, ?_⟩
    · intro v hv hvpos
      simp only [sharpeCard, if_pos h1, if_pos hdr, hv, if_pos hvpos]
    · intro hv
      simp only [sharpeCard, if_pos h1, if_pos hdr, hv]
      norm_num
    · intro hv
      simp only [sharpeCard, if_pos h1, if_pos hdr, hv]

/-- Witness for the amended C8 at `[100, 110, 99]`: returns `[0.1, -0.1]`,
sample variance `1/50 > 0`, so the card shows the ratio value. -/
theorem c8_sharpe_amended_witness :
    sharpeCard [100, 110, 99] = .ratio (listMean (dailyReturns [100, 110, 99])) (1/50) :=
  (((c8_sharpe_amended [100, 110, 99]).2 (by norm_num)
      (by intro v hv; simp at hv; rcases hv with rfl | rfl | rfl <;> norm_num)).1
    (1/50) (by with_unfolding_all rfl) (by norm_num))

/-! ## Current-price lookup and portfolio valuation
(src/portfolio/portfolio_manager.py lines 382-422) -/

/-- Function `_get_current_price`: fetch a `"1d"` frame; return the last close when
the frame is non-empty, otherwise fall through to `0.0`; the bare `except`
turns any raised error into `0.0` as well. -/
def getCurrentPrice (fetch : Except String (List ℚ)) : ℚ :=
  match fetch with
  | .ok closes =>
      match closes.getLast? with
      | some c => c
      | none => 0
  | .error _ => 0

/-- A stored positions row (symbol, quantity, avg_cost). -/
structure PositionRow where
  symbol : String
  quantity : ℚ
  avg_cost : ℚ
deriving DecidableEq, Repr

/-- The result dict of `_calculate_portfolio_value`. -/
structure PortfolioValue where
  total_value : ℚ
  total_cost : ℚ
  total_pnl : ℚ
  total_pnl_percent : ℚ
deriving DecidableEq, Repr

/-- One iteration of the `_calculate_portfolio_value` loop: positions with
zero quantity are skipped, others add `quantity * current_price` to the
running value and `quantity * avg_cost` to the running cost. -/
def portfolioStep (priceOf : String → Except String (List ℚ))
    (acc : ℚ × ℚ) (p : PositionRow) : ℚ × ℚ :=
  if p.quantity ≠ 0 then
    (acc.1 + p.quantity * getCurrentPrice (priceOf p.symbol),
     acc.2 + p.quantity * p.avg_cost)
  else acc

/-- The `(total_value, total_cost)` accumulators after the loop. -/
def portfolioTotals (priceOf : String → Except String (List ℚ))
    (positions : List PositionRow) : ℚ × ℚ :=
  positions.foldl (portfolioStep priceOf) (0, 0)

/-- Function `_calculate_portfolio_value` (lines 382-412): early return of all-zero
totals on an empty positions frame, otherwise the loop totals with
`total_pnl = total_value - total_cost` and a guarded percentage. -/
def calculatePortfolioValue (priceOf : String → Except String (List ℚ))
    (positions : List PositionRow) : PortfolioValue :=
  if positions.isEmpty then ⟨0, 0, 0, 0⟩
  else
    let t := portfolioTotals priceOf positions
    ⟨t.1, t.2, t.1 - t.2, if t.2 ≠ 0 then (t.1 - t.2) / t.2 * 100 else 0⟩

lemma foldl_portfolioStep_shift (priceOf : String → Except String (List ℚ))
    (l : List PositionRow) :
    ∀ a b : ℚ, l.foldl (portfolioStep priceOf) (a, b) =
      (a + (portfolioTotals priceOf l).1, b + (portfolioTotals priceOf l).2) := by
  induction l with
  | nil => intro a b; simp [portfolioTotals]
  | cons p l ih =>
      intro a b
      have hstep : ∀ x y : ℚ, portfolioStep priceOf (x, y) p =
          (x + (portfolioStep priceOf (0, 0) p).1, y + (portfolioStep priceOf (0, 0) p).2) := by
        intro x y
        by_cases hq : p.quantity ≠ 0 <;> simp [portfolioStep, hq]
      show (l.foldl (portfolioStep priceOf) (portfolioStep priceOf (a, b) p)) = _
      rw [hstep a b]
      rw [ih]
      have : portfolioTotals priceOf (p :: l) =
          (((portfolioStep priceOf (0, 0) p).1 + (portfolioTotals priceOf l).1),
           ((portfolioStep priceOf (0, 0) p).2 + (portfolioTotals priceOf l).2)) := by
        show (l.foldl (portfolioStep priceOf) (portfolioStep priceOf (0, 0) p)) = _
        rw [show portfolioStep priceOf (0, 0) p =
          ((portfolioStep priceOf (0, 0) p).1, (portfolioStep priceOf (0, 0) p).2) from rfl]
        rw [ih]
      rw [this]
      ring_nf

/-- C10: the current-price lookup is total and returns exactly `0` whenever
the fetch raises or returns an empty frame; consequently, in the portfolio
valuation such a symbol contributes `0` market value (its cost basis still
accrues), so the unrealized P&L for a single such position is exactly
`-(quantity × avg_cost)` rather than an error. -/
theorem c10_price_failure_zero (priceOf : String → Except String (List ℚ))
    (s : String)
    (hfail : (∃ e, priceOf s = .error e) ∨ priceOf s = .ok [])
    (p : PositionRow) (hp : p.symbol = s) (rest : List PositionRow) :
    getCurrentPrice (priceOf s) = 0 ∧
    (portfolioTotals priceOf (p :: rest)).1 = (portfolioTotals priceOf rest).1 ∧
    (portfolioTotals priceOf (p :: rest)).2 =
      (portfolioTotals priceOf rest).2 + p.quantity * p.avg_cost ∧
    (calculatePortfolioValue priceOf [p]).total_value = 0 ∧
    (calculatePortfolioValue priceOf [p]).total_pnl = -(p.quantity * p.avg_cost) := by
  have hzero : getCurrentPrice (priceOf s) = 0 := by
    rcases hfail with ⟨e, he⟩ | he <;> simp [getCurrentPrice, he]
  have hstep : portfolioStep priceOf (0, 0) p = (0, p.quantity * p.avg_cost) := by
    by_cases hq : p.quantity ≠ 0
    · simp [portfolioStep, hq, hp, hzero]
    · push_neg at hq
      simp [portfolioStep, hq]
  have htotals : portfolioTotals priceOf (p :: rest) =
      ((portfolioTotals priceOf rest).1,
       p.quantity * p.avg_cost + (portfolioTotals priceOf rest).2) := by
    show (rest.foldl (portfolioStep priceOf) (portfolioStep priceOf (0, 0) p)) = _
    rw [hstep, foldl_portfolioStep_shift]
    ring_nf
  have hsingle : portfolioTotals priceOf [p] = (0, p.quantity * p.avg_cost) := by
    show portfolioStep priceOf (0, 0) p = _
    exact hstep
  refine ⟨hzero, by rw [htotals], by rw [htotals]; ring, ?_, ?_⟩
  · simp [calculatePortfolioValue, hsingle]
  · simp [calculatePortfolioValue, hsingle]

/-- A price source that fails for "FAIL" and returns a one-bar frame at 50
for every other symbol. -/
def priceOfEx (s : String) : Except String (List ℚ) :=
  if s = "FAIL" then .error "connection error" else .ok [50]

/-- Witness for C10: a 10-share position at avg cost 20 on the failing
symbol is valued at price 0, for an unrealized P&L of -200. -/
theorem c10_price_failure_zero_witness :
    getCurrentPrice (priceOfEx "FAIL") = 0 ∧
    (portfolioTotals priceOfEx (⟨"FAIL", 10, 20⟩ :: [⟨"OK", 1, 2⟩])).1 =
      (portfolioTotals priceOfEx [⟨"OK", 1, 2⟩]).1 ∧
    (portfolioTotals priceOfEx (⟨"FAIL", 10, 20⟩ :: [⟨"OK", 1, 2⟩])).2 =
      (portfolioTotals priceOfEx [⟨"OK", 1, 2⟩]).2 +
        (PositionRow.mk "FAIL" 10 20).quantity * (PositionRow.mk "FAIL" 10 20).avg_cost ∧
    (calculatePortfolioValue priceOfEx [⟨"FAIL", 10, 20⟩]).total_value = 0 ∧
    (calculatePortfolioValue priceOfEx [⟨"FAIL", 10, 20⟩]).total_pnl =
      -((PositionRow.mk "FAIL" 10 20).quantity * (PositionRow.mk "FAIL" 10 20).avg_cost) :=
  c10_price_failure_zero priceOfEx "FAIL"
    (Or.inl ⟨"connection error", rfl⟩) ⟨"FAIL", 10, 20⟩ rfl [⟨"OK", 1, 2⟩]

end HedgeLab
